import Mathlib

/-!
Shallow embedding of the sliding-window rate limiter of the pdf-to-word
repository (src/middleware/errorHandler.js, rate-limiter half) and of the
configuration loading relevant to it (src/config/config.js).

Timestamps are modelled as `Int` (JS `Date.now()` values and arbitrary
caller-supplied instants; `Int` makes the JS subtraction `now - timestamp`
exact).  The in-memory `Map` `requestStore` is modelled as an association
list from client keys to request logs, with the usual get/set/delete
operations; a JS `Map` additionally guarantees key uniqueness, which is
carried as a `Nodup` hypothesis or via the reachability predicate where it
matters.
-/

namespace PdfToWord

/-- A request log: the array of timestamps stored for one client key. -/
abbrev RequestLog := List Int

/-- The `requestStore` map, as an association list from client key to log. -/
abbrev Store := List (String × RequestLog)

/-- `requestStore.get(k)` returning `undefined` as `none`. -/
def storeFind : Store → String → Option RequestLog
  | [], _ => none
  | (k2, v) :: rest, k => if k2 = k then some v else storeFind rest k

/-- `requestStore.get(clientKey) || []` (line 260 of the source). -/
def storeGet (s : Store) (k : String) : RequestLog :=
  (storeFind s k).getD []

/-- `requestStore.set(k, v)`: replace the entry in place if the key is
present, otherwise append a new entry (JS `Map` insertion order). -/
def storeSet : Store → String → RequestLog → Store
  | [], k, v => [(k, v)]
  | (k2, v2) :: rest, k, v =>
    if k2 = k then (k2, v) :: rest else (k2, v2) :: storeSet rest k v

/-- `requestStore.delete(k)`. -/
def storeDelete : Store → String → Store
  | [], _ => []
  | (k2, v2) :: rest, k => if k2 = k then rest else (k2, v2) :: storeDelete rest k

/-- Per-client rate-limit configuration, as destructured by
`createRateLimiter` (enabled, windowMs, maxRequests). -/
structure RateLimitConfig where
  enabled : Bool
  windowMs : Nat
  maxRequests : Nat
deriving Repr, DecidableEq

/-- The filter predicate `now - timestamp < windowMs` of lines 263, 314 and
340 of the source: `true` exactly when the entry is still inside the
sliding window. -/
def isRecent (windowMs : Nat) (now t : Int) : Bool :=
  now - t < (windowMs : Int)

/-- `requests.filter(timestamp => now - timestamp < windowMs)`. -/
def pruneLog (windowMs : Nat) (now : Int) (log : RequestLog) : RequestLog :=
  log.filter (isRecent windowMs now)

/-- `Math.ceil(windowMs / 1000)` (line 267), as ceiling division on `Nat`. -/
def retryAfterSeconds (windowMs : Nat) : Nat :=
  (windowMs + 999) / 1000

/-- Outcome of one pass through the rate limiter middleware: either the
request proceeds (`allow` carries the `X-RateLimit-Remaining` value
`maxRequests - recentRequests.length`; `allowUnlimited` is the disabled
no-op middleware's `'unlimited'` header) or it is short-circuited with 429
(`reject` carries `retryAfter` in seconds). -/
inductive AdmitResult where
  | allowUnlimited : AdmitResult
  | allow (remaining : Nat) : AdmitResult
  | reject (retryAfter : Nat) : AdmitResult
deriving Repr, DecidableEq

/-- The body of `rateLimiter(req, res, next)` (lines 255-300): read the
client's history, prune entries outside the window, reject when the pruned
log has reached `maxRequests` (leaving the store untouched), otherwise
append `now`, store the result back and allow. -/
def rateLimiter (cfg : RateLimitConfig) (clientKey : String) (now : Int)
    (store : Store) : AdmitResult × Store :=
  let clientRequests := storeGet store clientKey
  let recentRequests := pruneLog cfg.windowMs now clientRequests
  if cfg.maxRequests ≤ recentRequests.length then
    (.reject (retryAfterSeconds cfg.windowMs), store)
  else
    let updated := recentRequests ++ [now]
    (.allow (cfg.maxRequests - updated.length), storeSet store clientKey updated)

/-- `createRateLimiter` (lines 189-301): when `enabled` is false the
returned middleware is a no-op that reports `'unlimited'` and never touches
the store; otherwise it is `rateLimiter`. -/
def admitOp (cfg : RateLimitConfig) (clientKey : String) (now : Int)
    (store : Store) : AdmitResult × Store :=
  if cfg.enabled then rateLimiter cfg clientKey now store
  else (.allowUnlimited, store)

/-- `cleanupRequestStore` (lines 307-327): prune each key's log; delete the
key when the pruned log is empty, otherwise store the pruned log back. -/
def cleanupRequestStore (windowMs : Nat) (now : Int) (s : Store) : Store :=
  s.filterMap fun kv =>
    let recentRequests := pruneLog windowMs now kv.2
    if recentRequests.length = 0 then none else some (kv.1, recentRequests)

/-- `resetClient` (lines 362-368): delete the key if present, returning
whether it existed. -/
def resetClient (s : Store) (k : String) : Bool × Store :=
  if (storeFind s k).isSome then (true, storeDelete s k) else (false, s)

/-- `resetAll` (lines 373-377): clear the store. -/
def resetAll (_ : Store) : Store := []

/-- Statistics returned by `getRateLimiterStats` (lines 333-355).  The
source also reports `windowMs / 1000`, a display-only field not modelled
here. -/
structure LimiterStats where
  enabled : Bool
  activeClients : Nat
  totalRequests : Nat
  storeSize : Nat
  maxRequests : Nat
deriving Repr, DecidableEq

/-- The accumulation loop of `getRateLimiterStats`: for each key, prune
transiently; when the pruned log is non-empty, count the client and add its
pruned length.  Nothing is written back to the store. -/
def statsFold (windowMs : Nat) (now : Int) (s : Store) : Nat × Nat :=
  s.foldl
    (fun acc kv =>
      let recentRequests := pruneLog windowMs now kv.2
      if 0 < recentRequests.length then (acc.1 + 1, acc.2 + recentRequests.length)
      else acc)
    (0, 0)

/-- `getRateLimiterStats` (lines 333-355) as a pure function of the store. -/
def getRateLimiterStats (cfg : RateLimitConfig) (now : Int) (s : Store) :
    LimiterStats :=
  let counts := statsFold cfg.windowMs now s
  { enabled := cfg.enabled
    activeClients := counts.1
    totalRequests := counts.2
    storeSize := s.length
    maxRequests := cfg.maxRequests }

/-- `getRateLimiterStats` viewed as an operation on the limiter state: the
source performs no `set` or `delete` on `requestStore`, so the state
component is returned unchanged. -/
def getRateLimiterStatsOp (cfg : RateLimitConfig) (now : Int) (s : Store) :
    LimiterStats × Store :=
  (getRateLimiterStats cfg now s, s)

/-- Run a sequence of `admitOp` calls (key, now pairs) from a starting store,
returning the final store. -/
def applyCalls (cfg : RateLimitConfig) (calls : List (String × Int))
    (s : Store) : Store :=
  calls.foldl (fun st c => (admitOp cfg c.1 c.2 st).2) s

/-- Run a sequence of `admitOp` calls, collecting each call's outcome. -/
def runCalls (cfg : RateLimitConfig) : List (String × Int) → Store →
    List AdmitResult × Store
  | [], s => ([], s)
  | c :: rest, s =>
    let r := admitOp cfg c.1 c.2 s
    let rr := runCalls cfg rest r.2
    (r.1 :: rr.1, rr.2)

/-- Stores reachable from the empty `requestStore` through the module's
operations: admissions, periodic cleanup, and resets. -/
inductive Reachable (cfg : RateLimitConfig) : Store → Prop where
  | empty : Reachable cfg []
  | admitOp (k : String) (now : Int) {s : Store} :
      Reachable cfg s → Reachable cfg (admitOp cfg k now s).2
  | cleanup (now : Int) {s : Store} :
      Reachable cfg s → Reachable cfg (cleanupRequestStore cfg.windowMs now s)
  | resetClient (k : String) {s : Store} :
      Reachable cfg s → Reachable cfg (resetClient s k).2
  | resetAll {s : Store} :
      Reachable cfg s → Reachable cfg (resetAll s)

/-- Every stored log has at most `maxRequests` entries: `rateLimiter` only
writes `recentRequests ++ [now]` when `recentRequests.length <
maxRequests`, and the other operations only shrink logs. -/
def LogBounded (cfg : RateLimitConfig) (s : Store) : Prop :=
  ∀ kv ∈ s, kv.2.length ≤ cfg.maxRequests

/-- The `config.security.rateLimit` object of src/config/config.js: each
field is `Option`-valued, `none` modelling a JS property that is absent
(reads as `undefined`). -/
structure RateLimitSettings where
  enabled : Option Bool
  windowMs : Option Nat
  maxRequests : Option Nat
  skipSuccessfulRequests : Option Bool
  skipFailedRequests : Option Bool
deriving Repr, DecidableEq

/-- `config.security.rateLimit` as built at lines 46-52 of config.js when
no overriding environment variables are set:
`process.env.RATE_LIMIT_ENABLED !== 'false'` is true,
`parseInt(undefined) || 15 * 60 * 1000` is 900000,
`parseInt(undefined) || 100` is 100, and both skip flags are false. -/
def baseRateLimitConfig : RateLimitSettings :=
  { enabled := some true
    windowMs := some (15 * 60 * 1000)
    maxRequests := some 100
    skipSuccessfulRequests := some false
    skipFailedRequests := some false }

/-- The `security.rateLimit` object of `getEnvironmentConfig` (config.js
lines 169-215) for each environment name; `none` when the environment has
no entry (`envConfigs[environment] || {}`).  Properties the object
literals do not mention are `none` (absent). -/
def envRateLimit (environment : String) : Option RateLimitSettings :=
  if environment = "development" then
    some { enabled := some true, windowMs := none, maxRequests := some 1000,
           skipSuccessfulRequests := none, skipFailedRequests := none }
  else if environment = "production" then
    some { enabled := some true, windowMs := none, maxRequests := some 100,
           skipSuccessfulRequests := none, skipFailedRequests := none }
  else if environment = "test" then
    some { enabled := some false, windowMs := none, maxRequests := none,
           skipSuccessfulRequests := none, skipFailedRequests := none }
  else none

/-- `config.server.environment = process.env.NODE_ENV || 'development'`
with no environment variables set. -/
def defaultEnvironment : String := "development"

/-- Effect of `mergeEnvironmentConfig` (config.js lines 220-231) on
`config.security.rateLimit`: the statement
`config[key] = { ...config[key], ...envConfig[key] }` spreads only the top
level of `security`, so when the environment config carries a
`security.rateLimit` object it replaces the base `rateLimit` object
wholesale (its absent properties stay absent) instead of deep-merging into
it. -/
def mergedRateLimitConfig (environment : String) : RateLimitSettings :=
  match envRateLimit environment with
  | none => baseRateLimitConfig
  | some rl => rl

theorem storeFind_mem {s : Store} {k : String} {v : RequestLog}
    (h : storeFind s k = some v) : (k, v) ∈ s := by
  induction s with
  | nil => simp [storeFind] at h
  | cons kv rest ih =>
    obtain ⟨k2, v2⟩ := kv
    by_cases hk : k2 = k
    · subst hk
      simp [storeFind] at h
      subst h
      exact List.mem_cons_self _ _
    · simp [storeFind, hk] at h
      exact List.mem_cons_of_mem _ (ih h)

theorem mem_storeSet {s : Store} {k : String} {v : RequestLog} {kv : String × RequestLog}
    (h : kv ∈ storeSet s k v) : kv ∈ s ∨ kv.2 = v := by
  induction s with
  | nil =>
    simp [storeSet] at h
    subst h
    exact Or.inr rfl
  | cons kv2 rest ih =>
    obtain ⟨k2, v2⟩ := kv2
    by_cases hk : k2 = k
    · simp [storeSet, hk] at h
      rcases h with h | h
      · subst h; exact Or.inr rfl
      · exact Or.inl (List.mem_cons_of_mem _ h)
    · simp only [storeSet, if_neg hk, List.mem_cons] at h
      rcases h with h | h
      · exact Or.inl (by simp [h])
      · rcases ih h with h2 | h2
        · exact Or.inl (List.mem_cons_of_mem _ h2)
        · exact Or.inr h2

theorem storeFind_storeSet_self (s : Store) (k : String) (v : RequestLog) :
    storeFind (storeSet s k v) k = some v := by
  induction s with
  | nil => simp [storeSet, storeFind]
  | cons kv rest ih =>
    obtain ⟨k2, v2⟩ := kv
    by_cases hk : k2 = k
    · simp [storeSet, storeFind, hk]
    · simp [storeSet, storeFind, hk, ih]

theorem storeGet_storeSet_self (s : Store) (k : String) (v : RequestLog) :
    storeGet (storeSet s k v) k = v := by
  simp [storeGet, storeFind_storeSet_self]

theorem mem_storeDelete {s : Store} {k : String} {kv : String × RequestLog}
    (h : kv ∈ storeDelete s k) : kv ∈ s := by
  induction s with
  | nil => simp [storeDelete] at h
  | cons kv2 rest ih =>
    obtain ⟨k2, v2⟩ := kv2
    by_cases hk : k2 = k
    · simp only [storeDelete, if_pos hk] at h
      exact List.mem_cons_of_mem _ h
    · simp only [storeDelete, if_neg hk, List.mem_cons] at h
      rcases h with h | h
      · simp [h]
      · exact List.mem_cons_of_mem _ (ih h)

theorem storeGet_length_le {cfg : RateLimitConfig} {s : Store}
    (hb : LogBounded cfg s) (k : String) :
    (storeGet s k).length ≤ cfg.maxRequests := by
  unfold storeGet
  cases hf : storeFind s k with
  | none => simp
  | some v => simpa using hb (k, v) (storeFind_mem hf)

theorem logBounded_admitOp {cfg : RateLimitConfig} {s : Store}
    (hb : LogBounded cfg s) (k : String) (now : Int) :
    LogBounded cfg (admitOp cfg k now s).2 := by
  unfold admitOp rateLimiter
  by_cases hen : cfg.enabled
  · simp only [hen, if_true]
    by_cases hfull :
        cfg.maxRequests ≤ (pruneLog cfg.windowMs now (storeGet s k)).length
    · simpa [hfull] using hb
    · simp only [hfull, if_false]
      intro kv hkv
      rcases mem_storeSet hkv with h | h
      · exact hb kv h
      · rw [h]
        simp only [List.length_append, List.length_singleton]
        omega
  · simpa [hen] using hb

theorem logBounded_cleanup {cfg : RateLimitConfig} {s : Store}
    (hb : LogBounded cfg s) (now : Int) :
    LogBounded cfg (cleanupRequestStore cfg.windowMs now s) := by
  intro kv hkv
  unfold cleanupRequestStore at hkv
  rw [List.mem_filterMap] at hkv
  obtain ⟨kv0, hkv0, hmap⟩ := hkv
  by_cases hemp : (pruneLog cfg.windowMs now kv0.2).length = 0
  · rw [if_pos hemp] at hmap
    cases hmap
  · rw [if_neg hemp, Option.some_inj] at hmap
    subst hmap
    calc (pruneLog cfg.windowMs now kv0.2).length
        ≤ kv0.2.length := List.length_filter_le _ _
      _ ≤ cfg.maxRequests := hb kv0 hkv0

theorem reachable_logBounded {cfg : RateLimitConfig} {s : Store}
    (hr : Reachable cfg s) : LogBounded cfg s := by
  induction hr with
  | empty => intro kv hkv; simp at hkv
  | admitOp k now _ ih => exact logBounded_admitOp ih k now
  | cleanup now _ ih => exact logBounded_cleanup ih now
  | resetClient k _ ih =>
    unfold resetClient
    split
    · exact fun kv hkv => ih kv (mem_storeDelete hkv)
    · exact ih
  | resetAll _ _ => intro kv hkv; simp [PdfToWord.resetAll] at hkv

theorem all_of_le_length_filter {p : Int → Bool} {l : List Int} {n : Nat}
    (hfull : n ≤ (l.filter p).length) (hlen : l.length ≤ n) :
    ∀ t ∈ l, p t := by
  have hle := List.length_filter_le p l
  exact List.filter_length_eq_length.mp (le_antisymm hle (by omega))

/-- C1: on an enabled limiter, after `admitOp key now` returns — whether it
allowed or rejected — the stored log for `key` contains no timestamp `t`
with `now - t ≥ windowMs`.  On the allow path the pruned log (plus `now`)
is written back; on the reject path nothing is written, but reachable
stores never hold more than `maxRequests` entries per key, so a rejecting
call's log was already fully recent. -/
theorem admit_prunes_stored_log (cfg : RateLimitConfig) (k : String) (now : Int)
    (s : Store) (hen : cfg.enabled = true) (hw : 0 < cfg.windowMs)
    (hr : Reachable cfg s) :
    ∀ t ∈ storeGet (admitOp cfg k now s).2 k, now - t < (cfg.windowMs : Int) := by
  have hb := reachable_logBounded hr
  intro t ht
  simp only [admitOp, rateLimiter, hen, if_true] at ht
  by_cases hfull : cfg.maxRequests ≤ (pruneLog cfg.windowMs now (storeGet s k)).length
  · rw [if_pos hfull] at ht
    have hall : ∀ u ∈ storeGet s k, isRecent cfg.windowMs now u :=
      all_of_le_length_filter hfull (storeGet_length_le hb k)
    simpa [isRecent] using hall t ht
  · rw [if_neg hfull] at ht
    rw [storeGet_storeSet_self] at ht
    rcases List.mem_append.mp ht with h | h
    · simpa [isRecent] using (List.mem_filter.mp h).2
    · simp only [List.mem_singleton] at h
      subst h
      simpa using Int.natCast_pos.mpr hw

/-- Witness for C1 at a concrete input. -/
theorem admit_prunes_stored_log_witness :
    (5 : Int) - 5 < ((1000 : Nat) : Int) :=
  admit_prunes_stored_log ⟨true, 1000, 2⟩ "k" 5 [] rfl (by decide)
    Reachable.empty 5 (by decide)

theorem admit_allow_eq (cfg : RateLimitConfig) (k : String) (now : Int)
    (s : Store) (hen : cfg.enabled = true)
    (h : (pruneLog cfg.windowMs now (storeGet s k)).length < cfg.maxRequests) :
    admitOp cfg k now s
      = (.allow (cfg.maxRequests -
            ((pruneLog cfg.windowMs now (storeGet s k)).length + 1)),
         storeSet s k (pruneLog cfg.windowMs now (storeGet s k) ++ [now])) := by
  simp only [admitOp, rateLimiter, hen, if_true, if_neg (not_le.mpr h)]
  simp [List.length_append]

theorem admit_reject_eq (cfg : RateLimitConfig) (k : String) (now : Int)
    (s : Store) (hen : cfg.enabled = true)
    (h : cfg.maxRequests ≤ (pruneLog cfg.windowMs now (storeGet s k)).length) :
    admitOp cfg k now s = (.reject (retryAfterSeconds cfg.windowMs), s) := by
  simp only [admitOp, rateLimiter, hen, if_true, if_pos h]

theorem isRecent_self {W : Nat} (hw : 0 < W) (t : Int) :
    isRecent W t t = true := by
  simp only [isRecent, sub_self, decide_eq_true_eq]
  exact_mod_cast hw

theorem pruneLog_replicate_self {W : Nat} (hw : 0 < W) (t0 : Int) (m : Nat) :
    pruneLog W t0 (List.replicate m t0) = List.replicate m t0 :=
  List.filter_eq_self.mpr fun a ha => by
    rw [List.eq_of_mem_replicate ha]; exact isRecent_self hw t0

/-- Store contents after `n ≤ maxRequests` admissions of the same key at
the same instant, starting from the empty store. -/
theorem applyCalls_replicate_eq (cfg : RateLimitConfig) (k : String) (t0 : Int)
    (hen : cfg.enabled = true) (hw : 0 < cfg.windowMs) :
    ∀ n, n ≤ cfg.maxRequests →
      applyCalls cfg (List.replicate n (k, t0)) []
        = if n = 0 then [] else [(k, List.replicate n t0)] := by
  intro n
  induction n with
  | zero => intro _; simp [applyCalls]
  | succ m ih =>
    intro hle
    have hm := ih (Nat.le_of_succ_le hle)
    rw [List.replicate_succ']
    unfold applyCalls at hm ⊢
    rw [List.foldl_append, hm]
    simp only [List.foldl_cons, List.foldl_nil]
    rw [if_neg (Nat.succ_ne_zero m)]
    by_cases hm0 : m = 0
    · subst hm0
      rw [if_pos rfl]
      have hget : storeGet [] k = [] := rfl
      have hlt : (pruneLog cfg.windowMs t0 (storeGet ([] : Store) k)).length
          < cfg.maxRequests := by
        rw [hget]; simpa [pruneLog] using hle
      rw [admit_allow_eq cfg k t0 [] hen hlt, hget]
      simp [storeSet, pruneLog, List.replicate]
    · rw [if_neg hm0]
      have hget : storeGet [(k, List.replicate m t0)] k = List.replicate m t0 := by
        simp [storeGet, storeFind]
      have hlt : (pruneLog cfg.windowMs t0
            (storeGet [(k, List.replicate m t0)] k)).length < cfg.maxRequests := by
        rw [hget, pruneLog_replicate_self hw]
        simp only [List.length_replicate]
        omega
      rw [admit_allow_eq cfg k t0 [(k, List.replicate m t0)] hen hlt]
      rw [hget, pruneLog_replicate_self hw]
      simp [storeSet, List.replicate_succ']

theorem retryAfterSeconds_eq_ceil (w : Nat) :
    retryAfterSeconds w = ⌈(w : ℚ) / 1000⌉₊ := by
  rcases Nat.eq_zero_or_pos w with h | h
  · subst h; simp [retryAfterSeconds]
  · have hd := Nat.div_add_mod (w + 999) 1000
    have hm : (w + 999) % 1000 < 1000 := Nat.mod_lt _ (by norm_num)
    set n := (w + 999) / 1000 with hn
    have hnpos : 0 < n := by omega
    rw [retryAfterSeconds, ← hn]
    symm
    rw [Nat.ceil_eq_iff (by omega)]
    constructor
    · rw [lt_div_iff₀ (by norm_num : (0 : ℚ) < 1000)]
      have hlt : (n - 1) * 1000 < w := by omega
      calc ((n - 1 : ℕ) : ℚ) * 1000 = (((n - 1) * 1000 : ℕ) : ℚ) := by push_cast; ring
        _ < (w : ℚ) := by exact_mod_cast hlt
    · rw [div_le_iff₀ (by norm_num : (0 : ℚ) < 1000)]
      have hle : w ≤ n * 1000 := by omega
      calc (w : ℚ) ≤ ((n * 1000 : ℕ) : ℚ) := by exact_mod_cast hle
        _ = (n : ℚ) * 1000 := by push_cast; ring

/-- C2: the prune step keeps exactly the timestamps with
`now - t < windowMs` (so `t` is stale exactly when `windowMs ≤ now - t`),
and after filling the quota with `maxRequests` calls at `t0`, an admission
at `t0 + windowMs + 1` is allowed again. -/
theorem prune_halfOpen_window_and_expiry (cfg : RateLimitConfig) (k : String)
    (t0 : Int) (hen : cfg.enabled = true) (hw : 0 < cfg.windowMs)
    (hmax : 1 ≤ cfg.maxRequests) :
    (∀ (now t : Int) (log : RequestLog),
        t ∈ pruneLog cfg.windowMs now log ↔
          t ∈ log ∧ ¬ ((cfg.windowMs : Int) ≤ now - t)) ∧
    (admitOp cfg k (t0 + cfg.windowMs + 1)
        (applyCalls cfg (List.replicate cfg.maxRequests (k, t0)) [])).1
      = .allow (cfg.maxRequests - 1) := by
  constructor
  · intro now t log
    simp [pruneLog, List.mem_filter, isRecent, not_le]
  · rw [applyCalls_replicate_eq cfg k t0 hen hw cfg.maxRequests le_rfl,
      if_neg (by omega : cfg.maxRequests ≠ 0)]
    have hget : storeGet [(k, List.replicate cfg.maxRequests t0)] k
        = List.replicate cfg.maxRequests t0 := by simp [storeGet, storeFind]
    have hpr : pruneLog cfg.windowMs (t0 + cfg.windowMs + 1)
        (List.replicate cfg.maxRequests t0) = [] := by
      apply List.filter_eq_nil_iff.mpr
      intro a ha
      rw [List.eq_of_mem_replicate ha]
      simp only [isRecent, decide_eq_true_eq, not_lt]
      omega
    have hlt : (pruneLog cfg.windowMs (t0 + cfg.windowMs + 1)
          (storeGet [(k, List.replicate cfg.maxRequests t0)] k)).length
        < cfg.maxRequests := by
      rw [hget, hpr]; simpa using hmax
    rw [admit_allow_eq _ _ _ _ hen hlt, hget, hpr]
    simp

/-- Witness for C2 at a concrete input. -/
theorem prune_halfOpen_window_and_expiry_witness :
    ((0 : Int) ∈ pruneLog 1000 500 [0] ↔
        (0 : Int) ∈ [(0 : Int)] ∧ ¬ ((1000 : Int) ≤ 500 - 0)) ∧
    (admitOp ⟨true, 1000, 2⟩ "k" (0 + 1000 + 1)
        (applyCalls ⟨true, 1000, 2⟩ (List.replicate 2 ("k", 0)) [])).1
      = .allow (2 - 1) :=
  ⟨(prune_halfOpen_window_and_expiry ⟨true, 1000, 2⟩ "k" 0 rfl (by decide)
      (by decide)).1 500 0 [0],
   (prune_halfOpen_window_and_expiry ⟨true, 1000, 2⟩ "k" 0 rfl (by decide)
      (by decide)).2⟩

/-- C3: on an enabled limiter, when the pruned log has fewer than
`maxRequests` entries, `admitOp` appends `now` to the pruned log, stores it
back, and allows with `remaining = maxRequests - length(log after append)`. -/
theorem admit_allow_spec (cfg : RateLimitConfig) (k : String) (now : Int)
    (s : Store) (hen : cfg.enabled = true)
    (h : (pruneLog cfg.windowMs now (storeGet s k)).length < cfg.maxRequests) :
    admitOp cfg k now s
      = (.allow (cfg.maxRequests -
            (pruneLog cfg.windowMs now (storeGet s k) ++ [now]).length),
         storeSet s k (pruneLog cfg.windowMs now (storeGet s k) ++ [now])) := by
  rw [admit_allow_eq cfg k now s hen h]
  simp [List.length_append]

/-- Witness for C3 at a concrete input. -/
theorem admit_allow_spec_witness :
    admitOp ⟨true, 1000, 2⟩ "k" 5 []
      = (.allow (2 - (pruneLog 1000 5 (storeGet [] "k") ++ [5]).length),
         storeSet [] "k" (pruneLog 1000 5 (storeGet [] "k") ++ [(5 : Int)])) :=
  admit_allow_spec ⟨true, 1000, 2⟩ "k" 5 [] rfl (by decide)

/-- C4: on an enabled limiter, when the pruned log has at least
`maxRequests` entries, `admitOp` rejects with
`retryAfter = ceil(windowMs / 1000)` seconds, leaving the store unchanged;
the retry hint does not depend on the log's entries. -/
theorem admit_reject_spec (cfg : RateLimitConfig) (k : String) (now : Int)
    (s : Store) (hen : cfg.enabled = true)
    (h : cfg.maxRequests ≤ (pruneLog cfg.windowMs now (storeGet s k)).length) :
    admitOp cfg k now s = (.reject (retryAfterSeconds cfg.windowMs), s) ∧
    retryAfterSeconds cfg.windowMs = ⌈(cfg.windowMs : ℚ) / 1000⌉₊ :=
  ⟨admit_reject_eq cfg k now s hen h, retryAfterSeconds_eq_ceil cfg.windowMs⟩

/-- Witness for C4 at a concrete input. -/
theorem admit_reject_spec_witness :
    (admitOp ⟨true, 1000, 2⟩ "k" 5 [("k", [0, 0])]
        = (.reject (retryAfterSeconds 1000), [("k", [0, 0])])) ∧
    retryAfterSeconds 1000 = ⌈((1000 : Nat) : ℚ) / 1000⌉₊ :=
  admit_reject_spec ⟨true, 1000, 2⟩ "k" 5 [("k", [0, 0])] rfl (by decide)

/-- C5: starting from the empty store, `maxRequests` consecutive
admissions of the same key at the same instant all allow (with remaining
quota counting down), the next one at the same instant rejects; and the
spec's example run (`windowMs = 1000`, `maxRequests = 2`, calls at
`t = 0, 0, 0, 1001`) produces
Allow 1, Allow 0, Reject 1, Allow 1. -/
theorem consecutive_admits_spec (cfg : RateLimitConfig) (k : String) (t0 : Int)
    (hen : cfg.enabled = true) (hw : 0 < cfg.windowMs) :
    (∀ i < cfg.maxRequests,
        (admitOp cfg k t0 (applyCalls cfg (List.replicate i (k, t0)) [])).1
          = .allow (cfg.maxRequests - (i + 1))) ∧
    (admitOp cfg k t0 (applyCalls cfg (List.replicate cfg.maxRequests (k, t0)) [])).1
        = .reject (retryAfterSeconds cfg.windowMs) ∧
    (runCalls ⟨true, 1000, 2⟩ [("k", 0), ("k", 0), ("k", 0), ("k", 1001)] []).1
        = [.allow 1, .allow 0, .reject 1, .allow 1] := by
  refine ⟨?_, ?_, by decide⟩
  · intro i hi
    rw [applyCalls_replicate_eq cfg k t0 hen hw i (le_of_lt hi)]
    by_cases hi0 : i = 0
    · subst hi0
      rw [if_pos rfl]
      have hlt : (pruneLog cfg.windowMs t0 (storeGet ([] : Store) k)).length
          < cfg.maxRequests := by
        simp only [storeGet, storeFind, Option.getD_none, pruneLog,
          List.filter_nil, List.length_nil]
        omega
      rw [admit_allow_eq _ _ _ _ hen hlt]
      simp [storeGet, storeFind, pruneLog]
    · rw [if_neg hi0]
      have hget : storeGet [(k, List.replicate i t0)] k = List.replicate i t0 := by
        simp [storeGet, storeFind]
      have hlt : (pruneLog cfg.windowMs t0
            (storeGet [(k, List.replicate i t0)] k)).length < cfg.maxRequests := by
        rw [hget, pruneLog_replicate_self hw]
        simpa using hi
      rw [admit_allow_eq _ _ _ _ hen hlt, hget, pruneLog_replicate_self hw]
      simp
  · by_cases hN0 : cfg.maxRequests = 0
    · rw [applyCalls_replicate_eq cfg k t0 hen hw _ le_rfl, hN0, if_pos rfl]
      rw [admit_reject_eq _ _ _ _ hen (by rw [hN0]; exact Nat.zero_le _)]
    · rw [applyCalls_replicate_eq cfg k t0 hen hw _ le_rfl, if_neg hN0]
      have hget : storeGet [(k, List.replicate cfg.maxRequests t0)] k
          = List.replicate cfg.maxRequests t0 := by simp [storeGet, storeFind]
      have hge : cfg.maxRequests ≤ (pruneLog cfg.windowMs t0
          (storeGet [(k, List.replicate cfg.maxRequests t0)] k)).length := by
        rw [hget, pruneLog_replicate_self hw]
        simp
      rw [admit_reject_eq _ _ _ _ hen hge]

/-- Witness for C5 at a concrete input. -/
theorem consecutive_admits_spec_witness :
    (admitOp ⟨true, 1000, 2⟩ "k" 0
        (applyCalls ⟨true, 1000, 2⟩ (List.replicate 0 ("k", 0)) [])).1
      = .allow (2 - (0 + 1)) ∧
    (admitOp ⟨true, 1000, 2⟩ "k" 0
        (applyCalls ⟨true, 1000, 2⟩ (List.replicate 2 ("k", 0)) [])).1
      = .reject (retryAfterSeconds 1000) :=
  ⟨(consecutive_admits_spec ⟨true, 1000, 2⟩ "k" 0 rfl (by decide)).1 0 (by decide),
   (consecutive_admits_spec ⟨true, 1000, 2⟩ "k" 0 rfl (by decide)).2.1⟩

/-- C6: with `enabled = false` the middleware is a no-op: every call
allows with unlimited remaining quota and never writes the store, so after
any sequence of calls starting from the empty store the store is still
empty and `Stats().activeClients` is 0. -/
theorem disabled_bypass (cfg : RateLimitConfig) (k : String) (now now2 : Int)
    (s : Store) (calls : List (String × Int)) (hdis : cfg.enabled = false) :
    admitOp cfg k now s = (.allowUnlimited, s) ∧
    applyCalls cfg calls [] = [] ∧
    (getRateLimiterStats cfg now2 (applyCalls cfg calls [])).activeClients = 0 := by
  have hcall : ∀ (k2 : String) (n : Int) (s2 : Store),
      admitOp cfg k2 n s2 = (.allowUnlimited, s2) := by
    intro k2 n s2
    simp [admitOp, hdis]
  have happly : applyCalls cfg calls [] = [] := by
    induction calls with
    | nil => rfl
    | cons c rest ih =>
      show applyCalls cfg (c :: rest) [] = []
      unfold applyCalls
      rw [List.foldl_cons]
      have hstep : (admitOp cfg c.1 c.2 []).2 = [] := by rw [hcall]
      rw [hstep]
      exact ih
  exact ⟨hcall k now s, happly, by rw [happly]; rfl⟩

/-- Witness for C6 at a concrete input. -/
theorem disabled_bypass_witness :
    admitOp ⟨false, 1000, 2⟩ "k" 7 [("x", [1])] = (.allowUnlimited, [("x", [1])]) ∧
    applyCalls ⟨false, 1000, 2⟩ [("a", 0), ("b", 5)] [] = [] ∧
    (getRateLimiterStats ⟨false, 1000, 2⟩ 9
        (applyCalls ⟨false, 1000, 2⟩ [("a", 0), ("b", 5)] [])).activeClients = 0 :=
  disabled_bypass ⟨false, 1000, 2⟩ "k" 7 9 [("x", [1])] [("a", 0), ("b", 5)] rfl

theorem any_eq_true_iff_filter_pos {p : Int → Bool} {l : List Int} :
    l.any p = true ↔ 0 < (l.filter p).length := by
  rw [List.any_eq_true, List.length_pos, Ne, List.filter_eq_nil_iff]
  push_neg
  simp

theorem statsFold_go (W : Nat) (now : Int) (s : Store) :
    ∀ a b : Nat,
      s.foldl
          (fun acc kv =>
            let recentRequests := pruneLog W now kv.2
            if 0 < recentRequests.length then
              (acc.1 + 1, acc.2 + recentRequests.length)
            else acc)
          (a, b)
        = (a + s.countP (fun kv => kv.2.any (isRecent W now)),
           b + (s.map (fun kv => kv.2.countP (isRecent W now))).sum) := by
  induction s with
  | nil => intro a b; simp
  | cons kv rest ih =>
    intro a b
    by_cases hp : 0 < (pruneLog W now kv.2).length
    · rw [List.foldl_cons]
      simp only [if_pos hp]
      rw [ih]
      have hany : kv.2.any (isRecent W now) = true :=
        any_eq_true_iff_filter_pos.mpr hp
      have hg : kv.2.countP (isRecent W now) = (pruneLog W now kv.2).length := by
        rw [List.countP_eq_length_filter]
        rfl
      simp [List.countP_cons, List.map_cons, List.sum_cons, hany, hg,
        Prod.mk.injEq]
      omega
    · rw [List.foldl_cons]
      simp only [if_neg hp]
      rw [ih]
      have hany : kv.2.any (isRecent W now) = false := by
        rw [← Bool.not_eq_true, any_eq_true_iff_filter_pos]
        exact hp
      unfold pruneLog at hp
      have hcnt : kv.2.countP (isRecent W now) = 0 := by
        rw [List.countP_eq_length_filter]
        omega
      simp [List.countP_cons, List.map_cons, List.sum_cons, hany, hcnt,
        Prod.mk.injEq]

theorem statsFold_spec (W : Nat) (now : Int) (s : Store) :
    statsFold W now s
      = (s.countP (fun kv => kv.2.any (isRecent W now)),
         (s.map (fun kv => kv.2.countP (isRecent W now))).sum) := by
  have h := statsFold_go W now s 0 0
  simpa [statsFold] using h

/-- C7: `getRateLimiterStats` leaves the stored state unchanged (it is a
read-only pass over the store), reports `activeClients` as the number of
keys whose log has at least one non-stale timestamp, and
`totalRequests` as the sum of the non-stale timestamp counts over all
keys. -/
theorem stats_spec (cfg : RateLimitConfig) (now : Int) (s : Store) :
    (getRateLimiterStatsOp cfg now s).2 = s ∧
    (getRateLimiterStats cfg now s).activeClients
        = s.countP (fun kv => kv.2.any (isRecent cfg.windowMs now)) ∧
    (getRateLimiterStats cfg now s).totalRequests
        = (s.map (fun kv => kv.2.countP (isRecent cfg.windowMs now))).sum := by
  refine ⟨rfl, ?_, ?_⟩ <;> simp [getRateLimiterStats, statsFold_spec]

theorem storeFind_cleanup_eq_none {W : Nat} {now : Int} {k : String} :
    ∀ {s : Store}, k ∉ s.map Prod.fst →
      storeFind (cleanupRequestStore W now s) k = none := by
  intro s
  induction s with
  | nil => intro _; rfl
  | cons kv rest ih =>
    intro h
    obtain ⟨k2, v⟩ := kv
    simp only [List.map_cons, List.mem_cons, not_or] at h
    obtain ⟨h1, h2⟩ := h
    show storeFind (List.filterMap _ ((k2, v) :: rest)) k = none
    rw [List.filterMap_cons]
    by_cases hemp : (pruneLog W now v).length = 0
    · rw [if_pos hemp]
      exact ih h2
    · rw [if_neg hemp]
      show storeFind ((k2, pruneLog W now v) :: cleanupRequestStore W now rest) k
          = none
      have h1' : ¬ (k2 = k) := fun hk => h1 hk.symm
      simp only [storeFind, if_neg h1']
      exact ih h2

theorem cleanup_storeFind (W : Nat) (now : Int) :
    ∀ (s : Store), (s.map Prod.fst).Nodup → ∀ k,
      storeFind (cleanupRequestStore W now s) k
        = (storeFind s k).bind fun reqs =>
            if (pruneLog W now reqs).length = 0 then none
            else some (pruneLog W now reqs) := by
  intro s
  induction s with
  | nil => intro _ k; rfl
  | cons kv rest ih =>
    intro hnd k
    obtain ⟨k2, v⟩ := kv
    rw [List.map_cons, List.nodup_cons] at hnd
    obtain ⟨hk2, hnd2⟩ := hnd
    show storeFind (List.filterMap _ ((k2, v) :: rest)) k = _
    rw [List.filterMap_cons]
    by_cases hk : k2 = k
    · subst hk
      have hfind : storeFind ((k2, v) :: rest) k2 = some v := by simp [storeFind]
      rw [hfind]
      by_cases hemp : (pruneLog W now v).length = 0
      · rw [if_pos hemp]
        show storeFind (cleanupRequestStore W now rest) k2
            = if (pruneLog W now v).length = 0 then none
              else some (pruneLog W now v)
        rw [storeFind_cleanup_eq_none hk2, if_pos hemp]
      · rw [if_neg hemp]
        show storeFind ((k2, pruneLog W now v) :: cleanupRequestStore W now rest) k2
            = if (pruneLog W now v).length = 0 then none
              else some (pruneLog W now v)
        rw [if_neg hemp]
        simp [storeFind]
    · have hskip : storeFind ((k2, v) :: rest) k = storeFind rest k := by
        simp [storeFind, hk]
      rw [hskip]
      by_cases hemp : (pruneLog W now v).length = 0
      · rw [if_pos hemp]
        exact ih hnd2 k
      · rw [if_neg hemp]
        show storeFind ((k2, pruneLog W now v) :: cleanupRequestStore W now rest) k
            = _
        simp only [storeFind, if_neg hk]
        exact ih hnd2 k

theorem cleanup_entries (W : Nat) (now : Int) (s : Store) :
    ∀ kv ∈ cleanupRequestStore W now s,
      kv.2 ≠ [] ∧ ∀ t ∈ kv.2, now - t < (W : Int) := by
  intro kv hkv
  unfold cleanupRequestStore at hkv
  rw [List.mem_filterMap] at hkv
  obtain ⟨kv0, _, hmap⟩ := hkv
  by_cases hemp : (pruneLog W now kv0.2).length = 0
  · rw [if_pos hemp] at hmap
    cases hmap
  · rw [if_neg hemp, Option.some_inj] at hmap
    subst hmap
    refine ⟨fun hnil => hemp ?_, fun t ht => ?_⟩
    · have hn : pruneLog W now kv0.2 = [] := hnil
      rw [hn]
      rfl
    · simpa [isRecent] using (List.mem_filter.mp ht).2

/-- C9: `cleanupRequestStore` deletes a key exactly when its pruned log is
empty and persists the pruned log for every kept key; consequently, right
after it runs, every stored log is non-empty and every stored timestamp is
within the window. -/
theorem cleanup_spec (W : Nat) (now : Int) (s : Store)
    (hnd : (s.map Prod.fst).Nodup) :
    (∀ k, storeFind (cleanupRequestStore W now s) k
        = (storeFind s k).bind fun reqs =>
            if (pruneLog W now reqs).length = 0 then none
            else some (pruneLog W now reqs)) ∧
    (∀ kv ∈ cleanupRequestStore W now s,
        kv.2 ≠ [] ∧ ∀ t ∈ kv.2, now - t < (W : Int)) :=
  ⟨cleanup_storeFind W now s hnd, cleanup_entries W now s⟩

/-- Witness for C9 at a concrete input: key `"a"` (whose entries are all
stale at `now = 100`) is deleted by the sweep. -/
theorem cleanup_spec_witness :
    storeFind (cleanupRequestStore 100 100 [("a", [0]), ("b", [-5, 90])]) "a"
      = (storeFind [("a", [0]), ("b", [-5, 90])] "a").bind (fun reqs =>
          if (pruneLog 100 100 reqs).length = 0 then none
          else some (pruneLog 100 100 reqs)) :=
  (cleanup_spec 100 100 [("a", [0]), ("b", [-5, 90])] (by decide)).1 "a"

/-- C8 counterexample: with no overriding environment variables the
environment defaults to `development`, and the merged configuration the
rate limiter consumes has `maxRequests = 1000` and no `windowMs` property
at all — not the claimed `windowMs = 900000`, `maxRequests = 100`. -/
theorem config_defaults_counterexample :
    (mergedRateLimitConfig defaultEnvironment).maxRequests = some 1000 ∧
    (mergedRateLimitConfig defaultEnvironment).windowMs = none ∧
    mergedRateLimitConfig defaultEnvironment ≠ baseRateLimitConfig := by
  decide

/-- C8 amended: the base config defaults are
`enabled = true, windowMs = 900000, maxRequests = 100`, but
`mergeEnvironmentConfig` replaces `security.rateLimit` wholesale with the
development override, so the limiter actually consumes `enabled = true`,
`maxRequests = 1000`, and an undefined `windowMs`. -/
theorem config_defaults_amended :
    baseRateLimitConfig
      = { enabled := some true, windowMs := some 900000,
          maxRequests := some 100, skipSuccessfulRequests := some false,
          skipFailedRequests := some false } ∧
    mergedRateLimitConfig defaultEnvironment
      = { enabled := some true, windowMs := none, maxRequests := some 1000,
          skipSuccessfulRequests := none, skipFailedRequests := none } := by
  constructor <;> rfl

end PdfToWord
